import Mathlib

/-
Shallow embedding of the journal-entry risk-scoring pipeline
(src/risk_scoring.py) and proofs of the specified properties.

Modelling conventions:
* A dataframe is a `List` of row structures; each pipeline stage maps every
  row to a row of an extended structure (pandas adds columns in place, which
  is column-additive and row-preserving, so a structure-extension per stage
  is the direct translation).
* Group statistics (`groupby` + `agg` + `join`/`merge` on the group key) are
  embedded as: compute the statistic from the rows sharing the key, attach
  it to each row.  A `merge` against a one-row-per-key table is embedded as
  an association-table lookup (`List.find?` on the key).
* Monetary amounts and counts are `ℚ` (pandas float64 arithmetic on exact
  decimal inputs); z-scores are `ℝ` because the sample standard deviation is
  a square root.  NaN propagation (`std` of a singleton group, `replace(0,
  nan)`, `fillna(0)`) is embedded with `Option`: `none` plays NaN and the
  `fillna` step resolves it to 0, exactly as the source does.
* `posting_timestamp` is represented by its wall-clock hour:
  `Timestamp.tz_localize(zone)` attaches a zone without shifting the wall
  clock, so `.hour` of the localized value is the hour field of the naive
  timestamp (valid zone names assumed; no claim concerns invalid zones).
-/

/-- A calendar date (pandas `datetime64` day precision). -/
structure Date where
  year : Int
  month : Int
  day : Int
deriving DecidableEq

/-- Days since 1970-01-01 (proleptic Gregorian; Howard Hinnant's
`days_from_civil`, the standard civil-calendar arithmetic that
`datetime64` implements). -/
def daysFromCivil (dt : Date) : Int :=
  let y : Int := if dt.month ≤ 2 then dt.year - 1 else dt.year
  let era : Int := (if 0 ≤ y then y else y - 399) / 400
  let yoe : Int := y - era * 400
  let mp : Int := (dt.month + 9) % 12
  let doy : Int := (153 * mp + 2) / 5 + dt.day - 1
  let doe : Int := yoe * 365 + yoe / 4 - yoe / 100 + doy
  era * 146097 + doe - 719468

/-- Pandas `Series.dt.dayofweek`: 0 = Monday … 6 = Sunday
(1970-01-01 was a Thursday, hence the +3). -/
def dayOfWeek (dt : Date) : Int :=
  (daysFromCivil dt + 3) % 7

/-- The `values.astype("datetime64[M]")` cast: truncate a date to the first day of
its month. -/
def monthStartOf (dt : Date) : Date :=
  ⟨dt.year, dt.month, 1⟩

/-- Mean of a list of rationals (`pandas` group `mean`; groups produced by
`groupby` are never empty). -/
def listMean (xs : List ℚ) : ℚ :=
  xs.sum / xs.length

/-- Sample variance with `ddof = 1` (the square of `pandas` group `std`).
`none` is NaN: `std` of a group with fewer than two members. -/
def sampleVar (xs : List ℚ) : Option ℚ :=
  if xs.length < 2 then none
  else some ((xs.map (fun x => (x - listMean xs) ^ 2)).sum / ((xs.length : ℚ) - 1))

/-- The zero-variance-safe z-score used by both outlier detectors:
`(x - mean) / std.replace(0, nan)` followed by `fillna(0)`.  The division
yields NaN when `std` is NaN (singleton group) or 0 (zero variance), and
`fillna` turns that NaN into 0; `std = √v` is 0 exactly when `v` is 0. -/
noncomputable def zScore (xs : List ℚ) (x : ℚ) : ℝ :=
  match sampleVar xs with
  | none => 0
  | some v => if v = 0 then 0 else ((x : ℝ) - (listMean xs : ℝ)) / Real.sqrt (v : ℝ)

/-- One input row: the sixteen validated source columns of §3
(`posting_timestamp` represented by its wall-clock hour, see header note). -/
structure SrcRow where
  entry_id : String
  entity : String
  je_number : String
  line_num : Int
  account : String
  offset_account : String
  description : String
  amount : ℚ
  currency : String
  debit_credit : String
  posting_date : Date
  posting_hour : Int
  time_zone : String
  created_by : String
  source : String
  approval_status : String
deriving DecidableEq

/-- After `add_time_features`. -/
structure TRow extends SrcRow where
  local_hour : Int
  dow : Int
deriving DecidableEq

/-- After `compute_amount_stats`. -/
structure ARow extends TRow where
  abs_amount : ℚ
  avg_abs_amount : ℚ
  std_abs_amount : Option ℝ
  amount_z : ℝ
  amount_outlier_flag : ℕ
  round_dollar_flag : ℕ

/-- After `compute_user_volume`. -/
structure URow extends ARow where
  month_start : Date
  entry_volume_z : ℝ
  user_volume_outlier_flag : ℕ

/-- After `compute_pair_rarity`. -/
structure PRow extends URow where
  pair_count : ℕ
  rare_pair_flag : ℕ

/-- After `compute_rule_flags`. -/
structure FRow extends PRow where
  after_hours_flag : ℕ
  weekend_flag : ℕ
  period_close_flag : ℕ
  approval_pending_flag : ℕ
  keyword_flag : ℕ

/-- After `compute_risk_score`. -/
structure RRow extends FRow where
  risk_score : Int

/-- Stage `add_time_features`: local posting hour (per-row `tz_localize(...).hour`,
which is the naive timestamp's wall-clock hour) and day-of-week. -/
def addTimeFeatures (ds : List SrcRow) : List TRow :=
  ds.map fun r =>
    { toSrcRow := r
      local_hour := r.posting_hour
      dow := dayOfWeek r.posting_date }

/-- The `abs_amount` values of the rows of one `account` group
(`df.groupby("account")["abs_amount"]`; `abs_amount` is set for every row
before the grouping). -/
def accountAmounts (ds : List TRow) (acct : String) : List ℚ :=
  (ds.filter (fun s => s.account = acct)).map (fun s => |s.amount|)

/-- Stage `compute_amount_stats`: per-account mean/std of `|amount|` joined back
onto each row, zero-variance-safe z-score, outlier flag at `z ≥ 2`, and the
round-dollar flag (`abs_amount % 100 == 0`, i.e. `abs_amount / 100` is an
integer). -/
noncomputable def computeAmountStats (ds : List TRow) : List ARow :=
  ds.map fun r =>
    let xs := accountAmounts ds r.account
    let z := zScore xs |r.amount|
    { toTRow := r
      abs_amount := |r.amount|
      avg_abs_amount := listMean xs
      std_abs_amount := (sampleVar xs).map (fun v => Real.sqrt (v : ℝ))
      amount_z := z
      amount_outlier_flag := if (2 : ℝ) ≤ z then 1 else 0
      round_dollar_flag := if (|r.amount| / 100).den = 1 then 1 else 0 }

/-- The distinct (`created_by`, `month_start`) group keys, in first-occurrence
order (`groupby(["created_by", "month_start"])`). -/
def monthKeys (ds : List ARow) : List (String × Date) :=
  (ds.map (fun s => (s.created_by, monthStartOf s.posting_date))).dedup

/-- The `["entry_id"].nunique()` count for one (`created_by`, `month_start`) group:
the number of distinct entry ids the user posted in that month. -/
def distinctEntries (ds : List ARow) (k : String × Date) : ℕ :=
  (((ds.filter (fun s => s.created_by = k.1 ∧ monthStartOf s.posting_date = k.2)).map
      (fun s => s.entry_id)).dedup).length

/-- The `per_user_month` table: one row per (`created_by`, `month_start`)
group carrying that group's distinct-entry count. -/
def perUserMonth (ds : List ARow) : List ((String × Date) × ℚ) :=
  (monthKeys ds).map (fun k => (k, (distinctEntries ds k : ℚ)))

/-- One user's monthly distinct-entry counts: the rows of `per_user_month`
for that user (`per_user_month.groupby("created_by")`). -/
def userMonthCounts (ds : List ARow) (u : String) : List ℚ :=
  ((perUserMonth ds).filter (fun e => e.1.1 = u)).map (fun e => e.2)

/-- The `z_scores` table: `per_user_month` joined with the per-user
mean/std and the zero-variance-safe z-score of each monthly count. -/
noncomputable def zTable (ds : List ARow) : List ((String × Date) × ℝ) :=
  (perUserMonth ds).map (fun e => (e.1, zScore (userMonthCounts ds e.1.1) e.2))

/-- The merge on (`created_by`, `month_start`) with `how="left"`:
look up the row's key in `z_scores` (one row per key, so the left join is a
key lookup; every row's key is present because `z_scores` is derived from
the same frame, hence the `none` branch is unreachable). -/
noncomputable def mergeZ (tbl : List ((String × Date) × ℝ)) (k : String × Date) : ℝ :=
  match tbl.find? (fun e => e.1 = k) with
  | some e => e.2
  | none => 0

/-- Stage `compute_user_volume`: per-(user, month) distinct-entry counts, per-user
mean/std over the user's months, zero-variance-safe z-score broadcast to
every line of the (user, month), outlier flag at `z ≥ 2`. -/
noncomputable def computeUserVolume (ds : List ARow) : List URow :=
  ds.map fun r =>
    let ms := monthStartOf r.posting_date
    let z := mergeZ (zTable ds) (r.created_by, ms)
    { toARow := r
      month_start := ms
      entry_volume_z := z
      user_volume_outlier_flag := if (2 : ℝ) ≤ z then 1 else 0 }

/-- The `pair_counts` statistic: occurrences of one (`account`, `offset_account`) pair in
the whole dataset (`groupby(["account", "offset_account"]).size()`). -/
def pairCount (ds : List URow) (acct off : String) : ℕ :=
  (ds.filter (fun s => s.account = acct ∧ s.offset_account = off)).length

/-- The row-level `pair_count` values of one `account` group
(`subset["pair_count"]` in the per-account loop: one value per row of the
group, each row carrying its pair's count). -/
def accountPairCounts (ds : List URow) (acct : String) : List ℚ :=
  (ds.filter (fun s => s.account = acct)).map
    (fun s => (pairCount ds s.account s.offset_account : ℚ))

/-- Numpy `np.percentile(xs, 25)` with the default linear interpolation:
with `s` the sorted values and `h = (n-1)·25/100`, the result is
`s[⌊h⌋] + (h - ⌊h⌋)·(s[⌈h⌉] - s[⌊h⌋])` (`⌈h⌉` clamped to the last index). -/
def percentile25 (xs : List ℚ) : ℚ :=
  let s := xs.insertionSort (· ≤ ·)
  let h : ℚ := ((xs.length : ℚ) - 1) * 25 / 100
  let i : ℕ := (⌊h⌋).toNat
  let lo := s.getD i 0
  let hi := s.getD (min (i + 1) (xs.length - 1)) 0
  lo + (h - (i : ℚ)) * (hi - lo)

/-- Stage `compute_pair_rarity`: global pair counts joined onto each row, then per
`account` group the 25th percentile of the group's row-level pair counts,
and `rare_pair_flag = 1` iff `pair_count ≤ threshold` or `pair_count == 1`. -/
def computePairRarity (ds : List URow) : List PRow :=
  ds.map fun r =>
    let c := pairCount ds r.account r.offset_account
    let threshold := percentile25 (accountPairCounts ds r.account)
    { toURow := r
      pair_count := c
      rare_pair_flag := if (c : ℚ) ≤ threshold ∨ c = 1 then 1 else 0 }

/-- Business hours for one entity (`{"start": …, "end": …, "weekend_days": …}`;
`end` is a reserved word in Lean, hence `hStart`/`hEnd`). -/
structure BizHours where
  hStart : Int
  hEnd : Int
  weekendDays : List Int
deriving DecidableEq

/-- The `entity_hours` table. -/
def entityHours : List (String × BizHours) :=
  [("US", ⟨8, 18, [5, 6]⟩), ("UK", ⟨8, 18, [5, 6]⟩), ("APAC", ⟨9, 18, [5, 6]⟩)]

/-- Helper `hours_for_entity`: dictionary lookup with the default record for
unrecognized entities. -/
def hoursForEntity (e : String) : BizHours :=
  match entityHours.find? (fun p => p.1 = e) with
  | some p => p.2
  | none => ⟨8, 18, [5, 6]⟩

/-- The fixed keyword list. -/
def KEYWORDS : List String := ["gift", "manual", "write-off", "write off"]

/-- Substring containment over character lists (Python's `k in x`). -/
def charsContain (hay pat : List Char) : Bool :=
  match hay with
  | [] => pat.isEmpty
  | _ :: t => pat.isPrefixOf hay || charsContain t pat

/-- Python's `k in x` on strings. -/
def strContains (s pat : String) : Bool :=
  charsContain s.toList pat.toList

/-- Stage `compute_rule_flags`: entity-aware after-hours and weekend flags, the
period-close flag (`posting_date ≥ month_start + 25 days`), the
approval-pending flag and the keyword flag. -/
def computeRuleFlags (ds : List PRow) : List FRow :=
  ds.map fun r =>
    let hrs := hoursForEntity r.entity
    { toPRow := r
      after_hours_flag := if r.local_hour < hrs.hStart ∨ hrs.hEnd ≤ r.local_hour then 1 else 0
      weekend_flag := if r.dow ∈ hrs.weekendDays then 1 else 0
      period_close_flag :=
        if daysFromCivil (monthStartOf r.posting_date) + 25 ≤ daysFromCivil r.posting_date
        then 1 else 0
      approval_pending_flag :=
        if r.approval_status.toLower ∈ ["approved", "posted"] then 0 else 1
      keyword_flag := if KEYWORDS.any (fun k => strContains r.description.toLower k) then 1 else 0 }

/-- The nine flag columns `compute_risk_score` aggregates. -/
inductive FlagName
  | round_dollar
  | after_hours
  | weekend
  | period_close
  | approval_pending
  | keyword
  | rare_pair
  | amount_outlier
  | user_volume_outlier
deriving DecidableEq

/-- The fixed `weights` table, in source order. -/
def flagWeights : List (FlagName × Int) :=
  [(.round_dollar, 10), (.after_hours, 15), (.weekend, 10), (.period_close, 10),
   (.approval_pending, 10), (.keyword, 5), (.rare_pair, 15), (.amount_outlier, 20),
   (.user_volume_outlier, 15)]

/-- Numpy `np.clip(score, 0, 100)`. -/
def clip (s : Int) : Int :=
  min (max s 0) 100

/-- The aggregation loop of `compute_risk_score` over a (possibly partial)
set of flag columns: `score += df.get(flag, 0) * weight` for each entry of
the weight table, then `np.clip(score, 0, 100)`.  `get` returns `none` for
an absent column, matching `df.get`'s default of 0. -/
def scoreOf (get : FlagName → Option Int) : Int :=
  clip (flagWeights.foldl (fun acc fw => acc + ((get fw.1).getD 0) * fw.2) 0)

/-- The flag columns of a fully populated row. -/
def flagVal (r : FRow) : FlagName → Int
  | .round_dollar => r.round_dollar_flag
  | .after_hours => r.after_hours_flag
  | .weekend => r.weekend_flag
  | .period_close => r.period_close_flag
  | .approval_pending => r.approval_pending_flag
  | .keyword => r.keyword_flag
  | .rare_pair => r.rare_pair_flag
  | .amount_outlier => r.amount_outlier_flag
  | .user_volume_outlier => r.user_volume_outlier_flag

/-- Stage `compute_risk_score` on the pipeline's frame, where all nine flag
columns are present. -/
def computeRiskScore (ds : List FRow) : List RRow :=
  ds.map fun r =>
    { toFRow := r
      risk_score := scoreOf (fun f => some (flagVal r f)) }

/-- The full pipeline (`run` after a successful load). -/
noncomputable def pipeline (ds : List SrcRow) : List RRow :=
  computeRiskScore (computeRuleFlags (computePairRarity (computeUserVolume
    (computeAmountStats (addTimeFeatures ds)))))

/-- The sixteen required source columns of `load_data`. -/
def expectedCols : List String :=
  ["entry_id", "entity", "je_number", "line_num", "account", "offset_account",
   "description", "amount", "currency", "debit_credit", "posting_date",
   "posting_timestamp", "time_zone", "created_by", "source", "approval_status"]

/-- The set difference `expected_cols - set(df.columns)`. -/
def missingCols (cols : List String) : List String :=
  expectedCols.filter (fun c => c ∉ cols)

/-- The two columns `load_data` asks `read_csv` to parse as dates
(`parse_dates=["posting_date", "posting_timestamp"]`). -/
def parseDatesCols : List String := ["posting_date", "posting_timestamp"]

/-- Columns of `parse_dates` absent from the input.  `pd.read_csv` checks
these while reading, before any code of `load_data` after line 14 runs. -/
def missingDateCols (cols : List String) : List String :=
  parseDatesCols.filter (fun c => c ∉ cols)

/-- The load step of `run`.  `pd.read_csv(path, parse_dates=[...])` itself
raises when `posting_date` or `posting_timestamp` is absent, naming only
the missing date column(s); only when both date columns are present does
the explicit check run and raise with the whole set
`expected_cols - set(df.columns)`. -/
def loadData (cols : List String) : Except (List String) Unit :=
  if missingDateCols cols ≠ [] then .error (missingDateCols cols)
  else if missingCols cols = [] then .ok () else .error (missingCols cols)

/-- Driver `run`: load (column validation) and only then the pipeline stages. -/
noncomputable def runChecked (cols : List String) (ds : List SrcRow) :
    Except (List String) (List RRow) :=
  match loadData cols with
  | .error m => .error m
  | .ok _ => .ok (pipeline ds)

/-- Spec §4.4, read literally: the months present in the dataset for one
user (a user has a monthly count exactly for the months in which they
posted). -/
def specUserMonths (ds : List ARow) (u : String) : List Date :=
  ((ds.filter (fun s => s.created_by = u)).map (fun s => monthStartOf s.posting_date)).dedup

/-- Spec §4.4, read literally: that user's monthly distinct-entry counts
across all months present in the dataset. -/
def specUserMonthCounts (ds : List ARow) (u : String) : List ℚ :=
  (specUserMonths ds u).map (fun m => (distinctEntries ds (u, m) : ℚ))

/-- Spec §4.4, read literally, per row: the zero-variance-safe z-score of
the row's user's distinct-entry count for the row's month, relative to that
user's monthly counts, broadcast to the row; outlier flag at `z ≥ 2`. -/
noncomputable def specVolumeRow (ds : List ARow) (r : ARow) : URow :=
  let z := zScore (specUserMonthCounts ds r.created_by)
    (distinctEntries ds (r.created_by, monthStartOf r.posting_date))
  { toARow := r
    month_start := monthStartOf r.posting_date
    entry_volume_z := z
    user_volume_outlier_flag := if (2 : ℝ) ≤ z then 1 else 0 }

theorem clip_nonneg (s : Int) : 0 ≤ clip s := by
  unfold clip; omega

theorem clip_le_100 (s : Int) : clip s ≤ 100 := by
  unfold clip; omega

theorem filter_dedup_comm {α : Type} [DecidableEq α] (p : α → Bool) (l : List α) :
    l.dedup.filter p = (l.filter p).dedup := by
  induction l with
  | nil => simp
  | cons a t ih =>
    by_cases h : a ∈ t
    · rw [List.dedup_cons_of_mem h]
      by_cases hp : p a
      · rw [List.filter_cons_of_pos hp, List.dedup_cons_of_mem (List.mem_filter.2 ⟨h, hp⟩), ih]
      · rw [List.filter_cons_of_neg (by simpa using hp), ih]
    · rw [List.dedup_cons_of_not_mem h]
      by_cases hp : p a
      · rw [List.filter_cons_of_pos hp, List.filter_cons_of_pos hp,
          List.dedup_cons_of_not_mem (fun hmem => h (List.mem_filter.1 hmem).1), ih]
      · rw [List.filter_cons_of_neg (by simpa using hp),
          List.filter_cons_of_neg (by simpa using hp), ih]

theorem find?_pair_map {α β : Type} [DecidableEq α] (f : α → β) (ks : List α) (k : α)
    (hk : k ∈ ks) :
    (ks.map (fun x => (x, f x))).find? (fun e => e.1 = k) = some (k, f k) := by
  induction ks with
  | nil => cases hk
  | cons a t ih =>
    by_cases h : a = k
    · subst h
      simp [List.find?]
    · rcases List.mem_cons.1 hk with h' | h'
      · exact absurd h'.symm h
      · simpa [List.find?, h] using ih h'

theorem foldl_add_eq_sum {α : Type} (v : α → Int) (l : List α) (a : Int) :
    l.foldl (fun acc x => acc + v x) a = a + (l.map v).sum := by
  induction l generalizing a with
  | nil => simp
  | cons x t ih => simp [List.foldl_cons, ih, List.map_cons, List.sum_cons]; ring

theorem zScore_of_short (xs : List ℚ) (x : ℚ) (h : xs.length < 2) : zScore xs x = 0 := by
  simp [zScore, sampleVar, h]

theorem listMean_of_const (xs : List ℚ) (c : ℚ) (hne : xs ≠ [])
    (h : ∀ y ∈ xs, y = c) : listMean xs = c := by
  have hlen : (xs.length : ℚ) ≠ 0 := by
    exact_mod_cast (List.length_pos.2 hne).ne'
  have hsum : xs.sum = xs.length • c := List.sum_eq_card_nsmul xs c h
  rw [listMean, hsum, nsmul_eq_mul, mul_comm, mul_div_assoc, div_self hlen, mul_one]

theorem sampleVar_of_const (xs : List ℚ) (c : ℚ) (hne : xs ≠ [])
    (h : ∀ y ∈ xs, y = c) : sampleVar xs = none ∨ sampleVar xs = some 0 := by
  by_cases hlen : xs.length < 2
  · exact Or.inl (by simp [sampleVar, hlen])
  · refine Or.inr ?_
    have hmean : listMean xs = c := listMean_of_const xs c hne h
    have hterms : ∀ z ∈ xs.map (fun x => (x - listMean xs) ^ 2), z = 0 := by
      intro z hz
      rcases List.mem_map.1 hz with ⟨y, hy, rfl⟩
      rw [hmean, h y hy, sub_self]
      ring
    simp [sampleVar, hlen, List.sum_eq_zero hterms]

theorem zScore_of_const (xs : List ℚ) (c x : ℚ) (hne : xs ≠ [])
    (h : ∀ y ∈ xs, y = c) : zScore xs x = 0 := by
  rcases sampleVar_of_const xs c hne h with hv | hv <;> simp [zScore, hv]

theorem exists_min_mem {α : Type} [LinearOrder α] (l : List α) (h : l ≠ []) :
    ∃ y ∈ l, ∀ x ∈ l, y ≤ x := by
  induction l with
  | nil => cases h rfl
  | cons a t ih =>
    cases t with
    | nil => exact ⟨a, List.mem_singleton_self a, by simp⟩
    | cons b u =>
      obtain ⟨y, hy, hmin⟩ := ih (by simp)
      rcases le_total a y with hay | hya
      · exact ⟨a, List.mem_cons_self a _, by
          intro x hx
          rcases List.mem_cons.1 hx with rfl | hx
          · exact le_refl x
          · exact le_trans hay (hmin x hx)⟩
      · exact ⟨y, List.mem_cons_of_mem a hy, by
          intro x hx
          rcases List.mem_cons.1 hx with rfl | hx
          · exact hya
          · exact hmin x hx⟩

theorem le_percentile25 (xs : List ℚ) (hne : xs ≠ []) (m : ℚ)
    (hm : ∀ x ∈ xs, m ≤ x) : m ≤ percentile25 xs := by
  have hperm : List.Perm (xs.insertionSort (· ≤ ·)) xs := List.perm_insertionSort _ xs
  have hsort : (xs.insertionSort (· ≤ ·)).Sorted (· ≤ ·) := List.sorted_insertionSort _ xs
  have hlen : (xs.insertionSort (· ≤ ·)).length = xs.length := hperm.length_eq
  have hpos : 0 < xs.length := List.length_pos.2 hne
  have h1 : (1 : ℚ) ≤ (xs.length : ℚ) := by exact_mod_cast hpos
  set hq : ℚ := ((xs.length : ℚ) - 1) * 25 / 100 with hhq
  have h0 : (0 : ℚ) ≤ hq := by
    rw [hhq]
    have h2 : (0 : ℚ) ≤ (xs.length : ℚ) - 1 := by linarith
    positivity
  have hfl0 : 0 ≤ ⌊hq⌋ := Int.floor_nonneg.2 h0
  have hiZ : ((⌊hq⌋.toNat : ℤ)) = ⌊hq⌋ := Int.toNat_of_nonneg hfl0
  have hiq : ((⌊hq⌋.toNat : ℚ)) = (⌊hq⌋ : ℚ) := by exact_mod_cast hiZ
  have hile : hq ≤ (xs.length : ℚ) - 1 := by
    have h2 : (0 : ℚ) ≤ (xs.length : ℚ) - 1 := by linarith
    calc hq = ((xs.length : ℚ) - 1) * (25 / 100) := by rw [hhq]; ring
      _ ≤ ((xs.length : ℚ) - 1) * 1 := by
          exact mul_le_mul_of_nonneg_left (by norm_num) h2
      _ = (xs.length : ℚ) - 1 := by ring
  have hfloor_le : ⌊hq⌋ ≤ (xs.length : ℤ) - 1 := by
    have hcast : ((xs.length : ℚ) - 1) = (((xs.length : ℤ) - 1 : ℤ) : ℚ) := by push_cast; ring
    have := Int.floor_le_floor (α := ℚ) hile
    rwa [hcast, Int.floor_intCast] at this
  have hi_le : ⌊hq⌋.toNat ≤ xs.length - 1 := by omega
  have hi_lt : ⌊hq⌋.toNat < (xs.insertionSort (· ≤ ·)).length := by rw [hlen]; omega
  have hj_lt : min (⌊hq⌋.toNat + 1) (xs.length - 1) < (xs.insertionSort (· ≤ ·)).length := by
    rw [hlen]; omega
  have hgoal : m ≤ (xs.insertionSort (· ≤ ·)).getD ⌊hq⌋.toNat 0 +
      (hq - (⌊hq⌋.toNat : ℚ)) *
        ((xs.insertionSort (· ≤ ·)).getD (min (⌊hq⌋.toNat + 1) (xs.length - 1)) 0 -
          (xs.insertionSort (· ≤ ·)).getD ⌊hq⌋.toNat 0) := by
    rw [List.getD_eq_getElem _ _ hi_lt, List.getD_eq_getElem _ _ hj_lt]
    have hlo_mem : (xs.insertionSort (· ≤ ·))[⌊hq⌋.toNat] ∈ xs :=
      hperm.mem_iff.1 (List.getElem_mem hi_lt)
    have hlo : m ≤ (xs.insertionSort (· ≤ ·))[⌊hq⌋.toNat] := hm _ hlo_mem
    have hij : ⌊hq⌋.toNat ≤ min (⌊hq⌋.toNat + 1) (xs.length - 1) := by omega
    have hlohi : (xs.insertionSort (· ≤ ·))[⌊hq⌋.toNat] ≤
        (xs.insertionSort (· ≤ ·))[min (⌊hq⌋.toNat + 1) (xs.length - 1)] := by
      have := hsort.rel_get_of_le (a := ⟨⌊hq⌋.toNat, hi_lt⟩) (b := ⟨min (⌊hq⌋.toNat + 1) (xs.length - 1), hj_lt⟩) (by exact Fin.mk_le_mk.2 hij)
      simpa using this
    have hfrac : 0 ≤ hq - (⌊hq⌋.toNat : ℚ) := by
      rw [hiq]
      have := Int.floor_le hq
      linarith
    nlinarith [mul_nonneg hfrac (sub_nonneg.2 hlohi)]
  unfold percentile25
  exact hgoal

/-- The column set of a frame missing `posting_date` and `offset_account`:
`read_csv` fails on the `parse_dates` column and names only it. -/
def colsCE : List String :=
  ["entry_id", "entity", "je_number", "line_num", "account",
   "description", "amount", "currency", "debit_credit",
   "posting_timestamp", "time_zone", "created_by", "source", "approval_status"]

/-- Counterexample to C7 as stated: an input missing both `posting_date`
and `offset_account` fails inside `read_csv` with an error naming only
`posting_date`, so the missing required column `offset_account` is not
named and the full-enumeration clause of the claim is false for this
input. -/
theorem C7_schema_validation_counterexample :
    "offset_account" ∈ expectedCols ∧ "offset_account" ∉ colsCE ∧
    loadData colsCE = .error ["posting_date"] ∧
    runChecked colsCE [] = .error ["posting_date"] ∧
    "offset_account" ∉ ["posting_date"] :=
  ⟨by decide, by decide, rfl, rfl, by decide⟩

/-- C7 (amended): on inputs that do contain the two `parse_dates` columns
(`posting_date`, `posting_timestamp`), a missing required column makes
loading fail before any pipeline stage runs, with an error naming exactly
the missing required columns (all of them, not just the first); when all
sixteen required columns are present, loading succeeds and no
column-presence error is raised.  (Without the date columns, `read_csv`
itself fails earlier, naming only the missing date column(s).) -/
theorem C7_schema_validation (cols : List String) (ds : List SrcRow)
    (hdates : ∀ c ∈ parseDatesCols, c ∈ cols) :
    ((∃ c ∈ expectedCols, c ∉ cols) →
      ∃ m, runChecked cols ds = .error m ∧ loadData cols = .error m ∧
        (∀ c ∈ expectedCols, c ∉ cols → c ∈ m) ∧
        (∀ c ∈ m, c ∈ expectedCols ∧ c ∉ cols)) ∧
    ((∀ c ∈ expectedCols, c ∈ cols) → runChecked cols ds = .ok (pipeline ds)) := by
  have hd : missingDateCols cols = [] := by
    rw [missingDateCols, List.filter_eq_nil_iff]
    intro c hc
    simpa using hdates c hc
  constructor
  · rintro ⟨c, hc, hnc⟩
    have hmiss : missingCols cols ≠ [] := by
      intro h
      have hmem : c ∈ missingCols cols := List.mem_filter.2 ⟨hc, by simpa using hnc⟩
      rw [h] at hmem
      cases hmem
    refine ⟨missingCols cols, ?_, ?_, ?_, ?_⟩
    · simp [runChecked, loadData, hd, hmiss]
    · simp [loadData, hd, hmiss]
    · intro c' hc' hnc'
      exact List.mem_filter.2 ⟨hc', by simpa using hnc'⟩
    · intro c' hc'
      have h2 := List.mem_filter.1 hc'
      exact ⟨h2.1, by simpa using h2.2⟩
  · intro hall
    have hmiss : missingCols cols = [] := by
      rw [missingCols, List.filter_eq_nil_iff]
      intro c hc
      simpa using hall c hc
    simp [runChecked, loadData, hd, hmiss]

/-- The column set of a frame missing `account` and `offset_account` but
carrying both `parse_dates` columns. -/
def colsW7 : List String :=
  ["entry_id", "entity", "je_number", "line_num",
   "description", "amount", "currency", "debit_credit", "posting_date",
   "posting_timestamp", "time_zone", "created_by", "source", "approval_status"]

/-- Witness for the amended C7 at a concrete input: the date columns are
present and both missing columns are reported. -/
theorem C7_schema_validation_witness :
    (∀ c ∈ parseDatesCols, c ∈ colsW7) ∧
    (∃ c ∈ expectedCols, c ∉ colsW7) ∧
    ∃ m, runChecked colsW7 [] = .error m ∧ loadData colsW7 = .error m ∧
      (∀ c ∈ expectedCols, c ∉ colsW7 → c ∈ m) ∧
      (∀ c ∈ m, c ∈ expectedCols ∧ c ∉ colsW7) :=
  ⟨by decide, by decide, (C7_schema_validation colsW7 [] (by decide)).1 (by decide)⟩

/-- C6: the aggregator is total on any subset of the nine flag columns:
the score is always the clipped weighted sum in which an absent flag
contributes 0 (so absent columns never fail), dropping a column is the same
as scoring it as 0, and present flags are scored as usual. -/
theorem C6_missing_flag_columns (get : FlagName → Option Int) :
    scoreOf get = clip ((flagWeights.map (fun fw => ((get fw.1).getD 0) * fw.2)).sum) ∧
    scoreOf get = scoreOf (fun f => some ((get f).getD 0)) ∧
    ∀ f : FlagName, get f = none →
      scoreOf get = scoreOf (fun g => if g = f then some 0 else get g) := by
  refine ⟨?_, ?_, ?_⟩
  · unfold scoreOf
    rw [foldl_add_eq_sum (fun fw : FlagName × Int => ((get fw.1).getD 0) * fw.2) flagWeights 0,
      zero_add]
  · simp [scoreOf, flagWeights]
  · intro f hf
    cases f <;> simp [scoreOf, flagWeights, hf]

/-- A flag-column set with the keyword column absent. -/
def getW6 : FlagName → Option Int :=
  fun f => if f = .keyword then none else some 1

/-- Witness for C6 at a concrete input: the keyword column is absent and
dropping it equals scoring it as 0. -/
theorem C6_missing_flag_columns_witness :
    getW6 .keyword = none ∧
    scoreOf getW6 = scoreOf (fun g => if g = .keyword then some 0 else getW6 g) :=
  ⟨rfl, (C6_missing_flag_columns getW6).2.2 .keyword rfl⟩

/-- C3: a row whose (account, offset_account) pair occurs exactly once in
the whole dataset gets `rare_pair_flag = 1`, regardless of the account's
percentile threshold. -/
theorem C3_singleton_pair_override (ds : List URow) (p : PRow)
    (hp : p ∈ computePairRarity ds)
    (h1 : pairCount ds p.account p.offset_account = 1) :
    p.rare_pair_flag = 1 := by
  rcases List.mem_map.1 hp with ⟨r, hr, rfl⟩
  show (if (pairCount ds r.account r.offset_account : ℚ) ≤
      percentile25 (accountPairCounts ds r.account) ∨
      pairCount ds r.account r.offset_account = 1 then 1 else 0) = 1
  exact if_pos (Or.inr h1)

/-- C4: `rare_pair_flag = 1` exactly when the row's `pair_count` is at or
below the linear-interpolation 25th percentile of its own account's
row-level pair counts (no other account's counts are involved), or the
`pair_count` is 1. -/
theorem C4_rare_pair_threshold (ds : List URow) (p : PRow)
    (hp : p ∈ computePairRarity ds) :
    p.rare_pair_flag = 1 ↔
      ((p.pair_count : ℚ) ≤ percentile25 (accountPairCounts ds p.account) ∨
        p.pair_count = 1) := by
  rcases List.mem_map.1 hp with ⟨r, hr, rfl⟩
  show (if (pairCount ds r.account r.offset_account : ℚ) ≤
      percentile25 (accountPairCounts ds r.account) ∨
      pairCount ds r.account r.offset_account = 1 then 1 else 0) = 1 ↔
    ((pairCount ds r.account r.offset_account : ℚ) ≤
      percentile25 (accountPairCounts ds r.account) ∨
      pairCount ds r.account r.offset_account = 1)
  by_cases h : (pairCount ds r.account r.offset_account : ℚ) ≤
      percentile25 (accountPairCounts ds r.account) ∨
      pairCount ds r.account r.offset_account = 1
  · simp [h]
  · simp [h]

/-- A sample source row (account "A" against offset account "B"). -/
def srcW : SrcRow :=
  ⟨"E1", "US", "J1", 1, "A", "B", "d", 5, "USD", "D", ⟨2024, 1, 10⟩, 10, "UTC",
   "u1", "sys", "approved"⟩

/-- A second sample source row (account "A" against offset account "C"). -/
def srcW2 : SrcRow :=
  ⟨"E2", "US", "J1", 1, "A", "C", "d", 7, "USD", "D", ⟨2024, 1, 11⟩, 11, "UTC",
   "u1", "sys", "approved"⟩

/-- Row `srcW` after the temporal stage. -/
def tW : TRow := ⟨srcW, 10, 0⟩

/-- Row `srcW` carried to the pair-rarity stage's input type (z-score fields
irrelevant to pair rarity). -/
def uW : URow := ⟨⟨⟨srcW, 10, 0⟩, 5, 5, none, 0, 0, 1⟩, ⟨2024, 1, 1⟩, 0, 0⟩

/-- Row `srcW2` carried to the pair-rarity stage's input type. -/
def uW2 : URow := ⟨⟨⟨srcW2, 11, 0⟩, 7, 7, none, 0, 0, 1⟩, ⟨2024, 1, 1⟩, 0, 0⟩

/-- The pair-rarity dataset used by the witnesses. -/
def dsWP : List URow := [uW, uW2]

/-- The image of `uW` under `compute_pair_rarity` over `dsWP`. -/
def pW : PRow :=
  ⟨uW, pairCount dsWP uW.account uW.offset_account,
    if (pairCount dsWP uW.account uW.offset_account : ℚ) ≤
        percentile25 (accountPairCounts dsWP uW.account) ∨
        pairCount dsWP uW.account uW.offset_account = 1 then 1 else 0⟩

/-- Witness for C3 at a concrete input: the ("A", "B") pair occurs once,
and the row is flagged. -/
theorem C3_singleton_pair_override_witness :
    pairCount dsWP pW.account pW.offset_account = 1 ∧ pW.rare_pair_flag = 1 :=
  ⟨by decide,
    C3_singleton_pair_override dsWP pW
      (List.mem_map_of_mem _ (List.mem_cons_self uW [uW2])) (by decide)⟩

/-- Witness for C4 at a concrete input: the flag/threshold equivalence at
the image of `uW`. -/
theorem C4_rare_pair_threshold_witness :
    pW.rare_pair_flag = 1 ↔
      ((pW.pair_count : ℚ) ≤ percentile25 (accountPairCounts dsWP pW.account) ∨
        pW.pair_count = 1) :=
  C4_rare_pair_threshold dsWP pW
    (List.mem_map_of_mem _ (List.mem_cons_self uW [uW2]))

/-- C2: every member row of an account group whose rows all share one
`abs_amount`, or that has exactly one row, gets `amount_z = 0` and
`amount_outlier_flag = 0` (the degenerate statistic resolves to 0, never to
a non-finite value, and the stage is total). -/
theorem C2_zero_variance_group (ds : List TRow) (a : String)
    (hdeg : (∀ x ∈ accountAmounts ds a, ∀ y ∈ accountAmounts ds a, x = y) ∨
      (accountAmounts ds a).length = 1) :
    (computeAmountStats ds).Forall
      (fun r => r.account = a → r.amount_z = 0 ∧ r.amount_outlier_flag = 0) := by
  rw [List.forall_iff_forall_mem]
  intro r hr
  rcases List.mem_map.1 hr with ⟨s, hs, rfl⟩
  intro hacct
  have hacct' : s.account = a := hacct
  have hz : zScore (accountAmounts ds s.account) |s.amount| = 0 := by
    rw [hacct']
    rcases hdeg with hall | hone
    · by_cases hne : accountAmounts ds a = []
      · exact zScore_of_short _ _ (by rw [hne]; simp)
      · have hmem : |s.amount| ∈ accountAmounts ds a := by
          apply List.mem_map.2
          refine ⟨s, List.mem_filter.2 ⟨hs, by simpa using hacct'⟩, rfl⟩
        exact zScore_of_const _ |s.amount| _ hne (fun y hy => hall y hy _ hmem)
    · exact zScore_of_short _ _ (by rw [hone]; norm_num)
  refine ⟨hz, ?_⟩
  show (if (2 : ℝ) ≤ zScore (accountAmounts ds s.account) |s.amount| then 1 else 0) = 0
  rw [hz]
  norm_num

/-- Witness for C2 at a concrete input: a one-row account group. -/
theorem C2_zero_variance_group_witness :
    ((∀ x ∈ accountAmounts [tW] "A", ∀ y ∈ accountAmounts [tW] "A", x = y) ∨
      (accountAmounts [tW] "A").length = 1) ∧
    (computeAmountStats [tW]).Forall
      (fun r => r.account = "A" → r.amount_z = 0 ∧ r.amount_outlier_flag = 0) :=
  ⟨Or.inr (by decide), C2_zero_variance_group [tW] "A" (Or.inr (by decide))⟩

/-- C10: every account present in the dataset has at least one row with
`rare_pair_flag = 1`: the account-local 25th-percentile threshold is at or
above the group's minimum row-level pair count, so a row carrying the
minimum count is always flagged. -/
theorem C10_account_min_always_flagged (ds : List URow) (a : String)
    (ha : ∃ r ∈ ds, r.account = a) :
    ∃ p ∈ computePairRarity ds, p.account = a ∧ p.rare_pair_flag = 1 := by
  obtain ⟨r0, hr0, hacct0⟩ := ha
  have hne : accountPairCounts ds a ≠ [] := by
    have hmem : (pairCount ds r0.account r0.offset_account : ℚ) ∈ accountPairCounts ds a := by
      apply List.mem_map.2
      exact ⟨r0, List.mem_filter.2 ⟨hr0, by simpa using hacct0⟩, rfl⟩
    intro h
    rw [h] at hmem
    cases hmem
  obtain ⟨y, hy, hmin⟩ := exists_min_mem (accountPairCounts ds a) hne
  have hthr : y ≤ percentile25 (accountPairCounts ds a) :=
    le_percentile25 _ hne y hmin
  rcases List.mem_map.1 hy with ⟨r1, hr1f, hy1⟩
  have hr1 : r1 ∈ ds := (List.mem_filter.1 hr1f).1
  have hr1a : r1.account = a := by simpa using (List.mem_filter.1 hr1f).2
  refine ⟨_, List.mem_map_of_mem _ hr1, hr1a, ?_⟩
  show (if (pairCount ds r1.account r1.offset_account : ℚ) ≤
      percentile25 (accountPairCounts ds r1.account) ∨
      pairCount ds r1.account r1.offset_account = 1 then 1 else 0) = 1
  apply if_pos
  left
  have hpe : percentile25 (accountPairCounts ds r1.account) =
      percentile25 (accountPairCounts ds a) := by rw [hr1a]
  rw [hpe, hy1]
  exact hthr

/-- Witness for C10 at a concrete input: account "A" appears in `dsWP` and
one of its rows is flagged. -/
theorem C10_account_min_always_flagged_witness :
    (∃ r ∈ dsWP, r.account = "A") ∧
    ∃ p ∈ computePairRarity dsWP, p.account = "A" ∧ p.rare_pair_flag = 1 :=
  ⟨⟨uW, List.mem_cons_self uW [uW2], rfl⟩,
    C10_account_min_always_flagged dsWP "A" ⟨uW, List.mem_cons_self uW [uW2], rfl⟩⟩

/-- C8: the full pipeline neither adds, removes, duplicates nor reorders
rows: the (entry_id, line_num) identity sequence of the output equals that
of the input position by position (hence the identity pairs are in
bijection with the input rows), and the row count is preserved. -/
theorem C8_row_identity_preserved (ds : List SrcRow) :
    (pipeline ds).map (fun r => (r.entry_id, r.line_num)) =
      ds.map (fun s => (s.entry_id, s.line_num)) ∧
    (pipeline ds).length = ds.length := by
  constructor
  · simp only [pipeline, computeRiskScore, computeRuleFlags, computePairRarity,
      computeUserVolume, computeAmountStats, addTimeFeatures, List.map_map]
    rfl
  · simp [pipeline, computeRiskScore, computeRuleFlags, computePairRarity,
      computeUserVolume, computeAmountStats, addTimeFeatures]

theorem ite_flag_le_one (c : Prop) [Decidable c] : (if c then (1 : ℕ) else 0) ≤ 1 := by
  split <;> norm_num

theorem ite_flag_le_one' (c : Prop) [Decidable c] : (if c then (0 : ℕ) else 1) ≤ 1 := by
  split <;> norm_num

/-- Every pipeline output row carries 0/1 flags and, as its risk score, the
clipped weighted sum of its own flag columns (shared by the score claims). -/
theorem pipeline_row_fields (ds : List SrcRow) :
    (pipeline ds).Forall (fun r =>
      (r.round_dollar_flag ≤ 1 ∧ r.after_hours_flag ≤ 1 ∧ r.weekend_flag ≤ 1 ∧
        r.period_close_flag ≤ 1 ∧ r.approval_pending_flag ≤ 1 ∧ r.keyword_flag ≤ 1 ∧
        r.rare_pair_flag ≤ 1 ∧ r.amount_outlier_flag ≤ 1 ∧ r.user_volume_outlier_flag ≤ 1) ∧
      r.risk_score = clip (10 * (r.round_dollar_flag : Int) + 15 * (r.after_hours_flag : Int) +
        10 * (r.weekend_flag : Int) + 10 * (r.period_close_flag : Int) +
        10 * (r.approval_pending_flag : Int) + 5 * (r.keyword_flag : Int) +
        15 * (r.rare_pair_flag : Int) + 20 * (r.amount_outlier_flag : Int) +
        15 * (r.user_volume_outlier_flag : Int))) := by
  rw [List.forall_iff_forall_mem]
  intro r hr
  unfold pipeline computeRiskScore computeRuleFlags computePairRarity computeUserVolume
    computeAmountStats addTimeFeatures at hr
  rcases List.mem_map.1 hr with ⟨y, hy, rfl⟩
  rcases List.mem_map.1 hy with ⟨z, hz, rfl⟩
  rcases List.mem_map.1 hz with ⟨w, hw, rfl⟩
  rcases List.mem_map.1 hw with ⟨v, hv, rfl⟩
  rcases List.mem_map.1 hv with ⟨t, ht, rfl⟩
  rcases List.mem_map.1 ht with ⟨s, hs, rfl⟩
  constructor
  · refine ⟨?_, ?_, ?_, ?_, ?_, ?_, ?_, ?_, ?_⟩ <;>
      first
      | exact ite_flag_le_one _
      | exact ite_flag_le_one' _
  · simp only [scoreOf, flagVal, flagWeights, List.foldl_cons, List.foldl_nil,
      Option.getD_some]
    congr 1
    ring

/-- C1: after the full pipeline, every row's risk score is the weighted sum
of the nine 0/1 flags — weights 10, 15, 10, 10, 10, 5, 15, 20, 15 — clipped
to [0, 100], and in particular lies in [0, 100]. -/
theorem C1_risk_score_bounded_clip (ds : List SrcRow) :
    (pipeline ds).Forall (fun r =>
      (0 ≤ r.risk_score ∧ r.risk_score ≤ 100) ∧
      (r.round_dollar_flag ≤ 1 ∧ r.after_hours_flag ≤ 1 ∧ r.weekend_flag ≤ 1 ∧
        r.period_close_flag ≤ 1 ∧ r.approval_pending_flag ≤ 1 ∧ r.keyword_flag ≤ 1 ∧
        r.rare_pair_flag ≤ 1 ∧ r.amount_outlier_flag ≤ 1 ∧ r.user_volume_outlier_flag ≤ 1) ∧
      r.risk_score = clip (10 * (r.round_dollar_flag : Int) + 15 * (r.after_hours_flag : Int) +
        10 * (r.weekend_flag : Int) + 10 * (r.period_close_flag : Int) +
        10 * (r.approval_pending_flag : Int) + 5 * (r.keyword_flag : Int) +
        15 * (r.rare_pair_flag : Int) + 20 * (r.amount_outlier_flag : Int) +
        15 * (r.user_volume_outlier_flag : Int))) := by
  rw [List.forall_iff_forall_mem]
  intro r hr
  have h := List.forall_iff_forall_mem.1 (pipeline_row_fields ds) r hr
  refine ⟨?_, h.1, h.2⟩
  rw [h.2]
  exact ⟨clip_nonneg _, clip_le_100 _⟩

/-- C9: every final risk score is 5·k for some integer 0 ≤ k ≤ 20, i.e. a
multiple of 5 in {0, 5, …, 100}: all nine weights are multiples of 5,
each flag is 0 or 1, and the clip bounds 0 and 100 are multiples of 5. -/
theorem C9_risk_score_multiple_of_five (ds : List SrcRow) :
    (pipeline ds).Forall (fun r => ∃ k : Int, 0 ≤ k ∧ k ≤ 20 ∧ r.risk_score = 5 * k) := by
  rw [List.forall_iff_forall_mem]
  intro r hr
  have h := List.forall_iff_forall_mem.1 (pipeline_row_fields ds) r hr
  obtain ⟨⟨h1, h2, h3, h4, h5, h6, h7, h8, h9⟩, heq⟩ := h
  rw [heq]
  unfold clip
  refine ⟨min (2 * (r.round_dollar_flag : Int) + 3 * (r.after_hours_flag : Int) +
    2 * (r.weekend_flag : Int) + 2 * (r.period_close_flag : Int) +
    2 * (r.approval_pending_flag : Int) + (r.keyword_flag : Int) +
    3 * (r.rare_pair_flag : Int) + 4 * (r.amount_outlier_flag : Int) +
    3 * (r.user_volume_outlier_flag : Int)) 20, ?_, ?_, ?_⟩ <;> omega

/-- The per-user count list built through the `per_user_month` table equals
the spec's per-user description: the distinct-entry counts of the user's own
months, in first-occurrence order. -/
theorem userMonthCounts_eq_spec (ds : List ARow) (u : String) :
    userMonthCounts ds u = specUserMonthCounts ds u := by
  have hinj : Function.Injective (Prod.mk u : Date → String × Date) :=
    fun a b h => by simpa using congrArg Prod.snd h
  have hfeq : ∀ L : List ARow, (∀ s ∈ L, s.created_by = u) →
      L.map (fun s : ARow => (s.created_by, monthStartOf s.posting_date)) =
        (L.map (fun s : ARow => monthStartOf s.posting_date)).map (Prod.mk u) := by
    intro L hL
    rw [List.map_map]
    exact List.map_congr_left (fun s hs => by rw [hL s hs]; rfl)
  unfold userMonthCounts perUserMonth monthKeys
  rw [List.filter_map, List.map_map, filter_dedup_comm, List.filter_map]
  rw [hfeq _ (fun s hs => by simpa [Function.comp] using (List.mem_filter.1 hs).2)]
  rw [List.dedup_map_of_injective hinj, List.map_map]
  rfl

/-- C5: `compute_user_volume` computes, for every row, exactly the spec's
per-row description: the zero-variance-safe z-score of the user's
distinct-entry count for the row's month (month start of `posting_date`)
against that user's monthly distinct-entry counts, broadcast to every line
of that (user, month), with `user_volume_outlier_flag = 1` iff `z ≥ 2`. -/
theorem C5_user_volume_refines_spec (ds : List ARow) :
    computeUserVolume ds = ds.map (specVolumeRow ds) := by
  have hzt : zTable ds = (monthKeys ds).map
      (fun k => (k, zScore (userMonthCounts ds k.1) ((distinctEntries ds k : ℚ)))) := by
    unfold zTable perUserMonth
    rw [List.map_map]
    rfl
  unfold computeUserVolume
  apply List.map_congr_left
  intro r hr
  have hkey : (r.created_by, monthStartOf r.posting_date) ∈ monthKeys ds :=
    List.mem_dedup.2 (List.mem_map.2 ⟨r, hr, rfl⟩)
  have hfind := find?_pair_map
    (fun k : String × Date => zScore (userMonthCounts ds k.1) ((distinctEntries ds k : ℚ)))
    (monthKeys ds) _ hkey
  have hm : mergeZ (zTable ds) (r.created_by, monthStartOf r.posting_date) =
      zScore (userMonthCounts ds r.created_by)
        ((distinctEntries ds (r.created_by, monthStartOf r.posting_date) : ℚ)) := by
    unfold mergeZ
    rw [hzt, hfind]
  unfold specVolumeRow
  dsimp only
  rw [hm, userMonthCounts_eq_spec]
